import Mathlib

/-
Shallow embedding of the `immigration_strategy` core of the repository:

  * `pattern_analyzer.py`  (PatternAnalyzer)        — exact rational arithmetic (ℚ)
  * `similarity_search.py` (SimilaritySearch)       — real arithmetic (ℝ), cosine via Real.sqrt
  * `graph_builder.py`     (GraphBuilder)           — embedding normalisation and SIMILAR_TO edges
  * `strategy_engine.py`   (RecommendationEngine)   — recommendation merging (ℚ)

Python dictionaries with optional fields are modelled as records where the
empty string / empty list stands for a missing value, mirroring the code's
truthiness checks (`if profile.get("job_title")` etc.).  Python's `round`
(round-half-to-even on the scaled value) is modelled exactly over ℚ and ℝ.
-/

set_option maxHeartbeats 1000000

/- Batteries marks the `Rat` field operations `@[irreducible]`, which blocks
kernel evaluation of concrete rational arithmetic in `decide`-based proofs
below; restore the default reducibility for this file. -/
attribute [local semireducible] Rat.mul Rat.add Rat.sub Rat.inv

/-! ## Data model -/

/-- One case record as stored by `GraphBuilder.load_from_mongodb`
(`graph_builder.py` lines 57–75): the fields the core reads, with `""` / `[]`
standing for absent values exactly as the loader defaults them.
`similarity_score` is the optional score attached by `find_similar_cases`
(absent on corpus cases, present on search results). -/
structure Case where
  index : ℕ
  case_number : String
  outcome : String
  job_title : String
  company_type : String
  wage_level : String
  rfe_issues : List String
  arguments_made : List String
  similarity_score : Option ℚ
deriving DecidableEq, Inhabited

/-- A query profile (`find_similar_cases` docstring): all fields optional,
empty string / empty list meaning absent. -/
structure Profile where
  job_title : String
  company_type : String
  wage_level : String
  rfe_issues : List String
  current_arguments : List String
deriving DecidableEq, Inhabited

/-! ## Python rounding

`round(x, n)` in Python rounds `x` to `n` decimal places, ties to even
(banker's rounding) on the scaled value. -/

/-- Round to the nearest integer, ties to the even integer. -/
def roundHalfEven {α : Type} [LinearOrderedField α] [FloorRing α] (x : α) : ℤ :=
  if x - ⌊x⌋ < 1/2 then ⌊x⌋
  else if 1/2 < x - ⌊x⌋ then ⌊x⌋ + 1
  else if Even ⌊x⌋ then ⌊x⌋ else ⌊x⌋ + 1

/-- Python `round(x, 3)`. -/
def pyRound3 {α : Type} [LinearOrderedField α] [FloorRing α] (x : α) : α :=
  (roundHalfEven (x * 1000) : α) / 1000

/-- Python `round(x, 4)`. -/
def pyRound4 {α : Type} [LinearOrderedField α] [FloorRing α] (x : α) : α :=
  (roundHalfEven (x * 10000) : α) / 10000

/-! ## PatternAnalyzer (`pattern_analyzer.py`) -/

/-- `PatternAnalyzer._confidence_label` (lines 255–265). -/
def confidenceLabel (n : ℕ) : String :=
  if n < 3 then "very_low"
  else if n < 5 then "low"
  else if n < 10 then "medium"
  else if n < 20 then "high"
  else "very_high"

/-- The per-argument record produced by `counterfactual_analysis`
(lines 195–202). -/
structure CFStat where
  with_count : ℕ
  without_count : ℕ
  with_success_rate : ℚ
  without_success_rate : ℚ
  impact : ℚ
  confidence : String
deriving DecidableEq, Inhabited

/-- Body of the per-argument loop of `counterfactual_analysis`
(lines 186–202): partition `cases` by whether they used `arg`, compute the
SUSTAINED rate in each part (0 for an empty part) and report rounded rates,
the rounded rate difference, and a confidence label from the with-count. -/
def cfEntry (cases : List Case) (arg : String) : CFStat :=
  let withArg := cases.filter fun c => arg ∈ c.arguments_made
  let withoutArg := cases.filter fun c => arg ∉ c.arguments_made
  let withSust := (withArg.filter fun c => c.outcome = "SUSTAINED").length
  let woSust := (withoutArg.filter fun c => c.outcome = "SUSTAINED").length
  let withRate : ℚ := if withArg.isEmpty then 0 else (withSust : ℚ) / withArg.length
  let woRate : ℚ := if withoutArg.isEmpty then 0 else (woSust : ℚ) / withoutArg.length
  { with_count := withArg.length
    without_count := withoutArg.length
    with_success_rate := pyRound3 withRate
    without_success_rate := pyRound3 woRate
    impact := pyRound3 (withRate - woRate)
    confidence := confidenceLabel withArg.length }

/-- `sorted(all_args)` where `all_args` is the set of arguments appearing in
the analysed cases (lines 180–185): distinct argument tags in ascending
lexicographic order. -/
def allArgsSorted (cases : List Case) : List String :=
  List.insertionSort (· ≤ ·) ((cases.flatMap fun c => c.arguments_made).dedup)

/-- The Python idiom `cases = cases_subset or self.cases` of
`counterfactual_analysis` (line 178): `none` models passing no subset, and
an empty subset list falls back to the analyzer's full case list. -/
def subsetOrSelf (selfCases : List Case) : Option (List Case) → List Case
  | none => selfCases
  | some l => if l.isEmpty then selfCases else l

/-- `PatternAnalyzer.counterfactual_analysis` (lines 173–204): the returned
dict is modelled as an association list in the dict's iteration order —
insertion order (sorted argument names) stably re-sorted descending by
`impact`. -/
def counterfactualAnalysis (selfCases : List Case) (subset : Option (List Case)) :
    List (String × CFStat) :=
  List.insertionSort (fun a b => b.2.impact ≤ a.2.impact)
    ((allArgsSorted (subsetOrSelf selfCases subset)).map fun a =>
      (a, cfEntry (subsetOrSelf selfCases subset) a))

/-- Result record of `calculate_success_probability` (lines 216 and 242–249).
The empty-input branch returns a dict with only `probability`, `basis` and
`sample_size`; the other fields are `none` there. -/
structure ProbResult where
  probability : ℚ
  sample_size : ℕ
  basis : Option String
  base_probability : Option ℚ
  argument_boost : Option ℚ
  sustained_in_similar : Option ℕ
  confidence : Option String
deriving DecidableEq, Inhabited

/-- `PatternAnalyzer.calculate_success_probability` (lines 210–249):
similarity-weighted mean of SUSTAINED indicators (unweighted mean when the
weights sum to 0), plus a dampened boost from positive counterfactual
impacts of the user's current arguments, clamped to [0,1].
`user_args` is a Python `set`, hence the `dedup`. -/
def calcSuccessProbability (selfCases : List Case) (p : Profile)
    (similar : List Case) : ProbResult :=
  if similar.isEmpty then
    { probability := 0, sample_size := 0, basis := some "no similar cases"
      base_probability := none, argument_boost := none
      sustained_in_similar := none, confidence := none }
  else
    let weights := similar.map fun c => c.similarity_score.getD (1/2)
    let outcomes := similar.map fun c => if c.outcome = "SUSTAINED" then (1 : ℚ) else 0
    let base : ℚ :=
      if weights.sum = 0 then outcomes.sum / outcomes.length
      else (List.zipWith (· * ·) weights outcomes).sum / weights.sum
    let counterfactuals := counterfactualAnalysis selfCases (some similar)
    let userArgs := p.current_arguments.dedup
    let boost : ℚ := (userArgs.map fun a =>
      match counterfactuals.lookup a with
      | some s => if 0 < s.impact then s.impact * (3/10) else 0
      | none => 0).sum
    let adjusted := min 1 (max 0 (base + boost))
    { probability := pyRound3 adjusted
      sample_size := similar.length
      basis := none
      base_probability := some (pyRound3 base)
      argument_boost := some (pyRound3 boost)
      sustained_in_similar := some ((similar.filter fun c => c.outcome = "SUSTAINED").length)
      confidence := some (confidenceLabel similar.length) }

/-- Spec-side definition for claim C4: the favorable (SUSTAINED) fraction of
a list of cases, 0 for the empty list.  Stated from the claim's words
("favorable fraction among cases using the argument"); compared against the
source-side `cfEntry`. -/
def specFavorableFraction (l : List Case) : ℚ :=
  if l.isEmpty then 0
  else ((l.filter fun c => c.outcome = "SUSTAINED").length : ℚ) / l.length

/-! ## SimilaritySearch (`similarity_search.py`)

Metadata similarity is exact rational arithmetic; the embedding side
(centroid, cosine similarity) is real arithmetic. -/

/-- Token set of a job title: `set(a.lower().split())` — lowercase,
whitespace-split, empty tokens dropped (Python `split()` drops them). -/
def tokenSet (s : String) : Finset String :=
  ((s.toLower.split Char.isWhitespace).filter (· ≠ "")).toFinset

/-- `SimilaritySearch._job_title_sim` (lines 103–110). -/
def jobTitleSim (a b : String) : ℚ :=
  if tokenSet a = ∅ ∨ tokenSet b = ∅ then 0
  else ((tokenSet a ∩ tokenSet b).card : ℚ) / ((tokenSet a ∪ tokenSet b).card : ℚ)

/-- The `order` lookup of `SimilaritySearch._wage_level_sim` (line 115):
0 for unrecognised levels. -/
def wageOrder (s : String) : ℕ :=
  if s.toLower.trim = "level i" then 1
  else if s.toLower.trim = "level ii" then 2
  else if s.toLower.trim = "level iii" then 3
  else if s.toLower.trim = "level iv" then 4
  else 0

/-- `SimilaritySearch._wage_level_sim` (lines 112–120). -/
def wageLevelSim (a b : String) : ℚ :=
  if wageOrder a = 0 ∨ wageOrder b = 0 then 0
  else 1 - |(wageOrder a : ℚ) - (wageOrder b : ℚ)| / 3

/-- `SimilaritySearch._jaccard` (lines 122–126), on finite string sets. -/
def jaccardSet (a b : Finset String) : ℚ :=
  if a = ∅ ∧ b = ∅ then 0
  else if a ∪ b = ∅ then 0
  else ((a ∩ b).card : ℚ) / ((a ∪ b).card : ℚ)

/-- The `(score, weight)` pairs accumulated by
`SimilaritySearch._metadata_similarity` (lines 73–94): each field
contributes only when both the profile and the case have it populated. -/
def fieldPairs (p : Profile) (c : Case) : List (ℚ × ℚ) :=
  (if p.job_title ≠ "" ∧ c.job_title ≠ "" then
    [(jobTitleSim p.job_title c.job_title, 3/10)] else [])
  ++ (if p.company_type ≠ "" ∧ c.company_type ≠ "" then
    [((if p.company_type.toLower = c.company_type.toLower then (1 : ℚ) else 0), 2/10)] else [])
  ++ (if p.wage_level ≠ "" ∧ c.wage_level ≠ "" then
    [(wageLevelSim p.wage_level c.wage_level, 15/100)] else [])
  ++ (if p.rfe_issues ≠ [] ∧ c.rfe_issues ≠ [] then
    [(jaccardSet p.rfe_issues.toFinset c.rfe_issues.toFinset, 35/100)] else [])

/-- `SimilaritySearch._metadata_similarity` (lines 71–101): weighted mean of
the populated field scores, weights renormalised to sum 1; 0 when no field
is comparable. -/
def metadataSimilarity (p : Profile) (c : Case) : ℚ :=
  if (fieldPairs p c).isEmpty then 0
  else ((fieldPairs p c).map fun q =>
    q.1 * q.2 / ((fieldPairs p c).map fun q2 => q2.2).sum).sum

/-- Euclidean (L2) norm of a vector. -/
noncomputable def l2norm {d : ℕ} (v : Fin d → ℝ) : ℝ :=
  Real.sqrt (∑ j, v j ^ 2)

/-- Dot product. -/
noncomputable def dotR {d : ℕ} (u v : Fin d → ℝ) : ℝ :=
  ∑ j, u j * v j

/-- `sklearn.metrics.pairwise.cosine_similarity` on a pair of rows:
each row is L2-normalised, with zero-norm rows left unchanged
(sklearn's `normalize` replaces a zero norm by 1), then dotted. -/
noncomputable def cosineSim {d : ℕ} (u v : Fin d → ℝ) : ℝ :=
  dotR u v /
    ((if l2norm u = 0 then 1 else l2norm u) * (if l2norm v = 0 then 1 else l2norm v))

/-- Row `i` of the embedding matrix (rows beyond the end default to 0;
the engine always passes a matrix aligned with the case list). -/
noncomputable def embGet {d : ℕ} (embs : List (Fin d → ℝ)) (i : ℕ) : Fin d → ℝ :=
  embs.getD i fun _ => 0

/-- Step 1 of `find_similar_cases` (lines 28–30): the metadata score of
every case, in corpus order. -/
def metaScores (p : Profile) (cases : List Case) : List ℚ :=
  cases.map fun c => metadataSimilarity p c

/-- `meta_scores[i]`. -/
def metaGet (p : Profile) (cases : List Case) (i : ℕ) : ℚ :=
  (metaScores p cases).getD i 0

/-- Step 2 (line 33): `np.argsort(meta_scores)[-min(10, len(cases)):]` —
indices sorted ascending by metadata score, keeping the last
`min(10, n)`.  Ties are modelled in stable input order. -/
def topMetaIdx (p : Profile) (cases : List Case) : List ℕ :=
  let n := cases.length
  (List.insertionSort (fun i j => metaGet p cases i ≤ metaGet p cases j)
    (List.range n)).drop (n - min 10 n)

/-- Step 2 (line 34): centroid (coordinate-wise mean) of the top
metadata-match embeddings. -/
noncomputable def centroid {d : ℕ} (p : Profile) (cases : List Case)
    (embs : List (Fin d → ℝ)) : Fin d → ℝ :=
  fun j => ((topMetaIdx p cases).map fun i => embGet embs i j).sum /
    ((topMetaIdx p cases).length : ℝ)

/-- Step 3 (line 37): cosine similarity of the centroid against case `i`'s
embedding.  The subsequent `np.nan_to_num(emb_scores, nan=0.0)` (line 41) is
the identity in exact real arithmetic, where `cosineSim` is total and
finite; its float behaviour on non-finite entries is modelled separately by
`nanToNum` below. -/
noncomputable def embScores {d : ℕ} (p : Profile) (cases : List Case)
    (embs : List (Fin d → ℝ)) (i : ℕ) : ℝ :=
  cosineSim (centroid p cases embs) (embGet embs i)

/-- Step 4 (line 42): `combined = 0.6 * meta_scores + 0.4 * emb_scores`. -/
noncomputable def combinedScores {d : ℕ} (p : Profile) (cases : List Case)
    (embs : List (Fin d → ℝ)) (i : ℕ) : ℝ :=
  0.6 * ((metaGet p cases i : ℚ) : ℝ) + 0.4 * embScores p cases embs i

/-- Step 5 (line 45): `np.argsort(combined)[::-1]` — indices in descending
combined-score order (ties modelled deterministically). -/
noncomputable def rankedIdx {d : ℕ} (p : Profile) (cases : List Case)
    (embs : List (Fin d → ℝ)) : List ℕ :=
  (List.insertionSort (fun i j => combinedScores p cases embs i ≤ combinedScores p cases embs j)
    (List.range cases.length)).reverse

/-- The dedup key of lines 50–53: the case number when non-empty, else the
stringified corpus index. -/
def dedupKey (cases : List Case) (i : ℕ) : String :=
  let cn := (cases.getD i default).case_number
  if cn = "" then toString i else cn

/-- One returned entry of `find_similar_cases` (lines 58–61): the case dict
augmented with the three rounded scores. -/
structure SimResult where
  caseDict : Case
  similarity_score : ℝ
  metadata_score : ℝ
  embedding_score : ℝ

/-- Builds the result entry for corpus position `i` (lines 58–61). -/
noncomputable def mkResult {d : ℕ} (p : Profile) (cases : List Case)
    (embs : List (Fin d → ℝ)) (i : ℕ) : SimResult :=
  { caseDict := cases.getD i default
    similarity_score := pyRound4 (combinedScores p cases embs i)
    metadata_score := pyRound4 ((metaGet p cases i : ℚ) : ℝ)
    embedding_score := pyRound4 (embScores p cases embs i) }

/-- The ranked dedup-and-truncate loop of lines 47–65: walk the ranked
indices, skip seen dedup keys, append otherwise, and stop as soon as the
result length reaches `topK` (checked after appending, as in the source). -/
def selectLoop (key : ℕ → String) (mk : ℕ → SimResult) (topK : ℕ) :
    ℕ → List ℕ → List String → List SimResult
  | _, [], _ => []
  | count, i :: rest, seen =>
    if key i ∈ seen then selectLoop key mk topK count rest seen
    else if topK ≤ count + 1 then [mk i]
    else mk i :: selectLoop key mk topK (count + 1) rest (key i :: seen)

/-- `SimilaritySearch.find_similar_cases` (lines 19–67). -/
noncomputable def findSimilarCases {d : ℕ} (p : Profile) (cases : List Case)
    (embs : List (Fin d → ℝ)) (topK : ℕ) : List SimResult :=
  selectLoop (dedupKey cases) (mkResult p cases embs) topK 0 (rankedIdx p cases embs) []

/-! ## GraphBuilder (`graph_builder.py`) -/

/-- Row normalisation of `load_from_mongodb` (lines 50–53): divide by the
L2 norm, with zero norms replaced by 1 to avoid division by zero. -/
noncomputable def normalizeRow {d : ℕ} (v : Fin d → ℝ) : Fin d → ℝ :=
  fun j => v j / (if l2norm v = 0 then 1 else l2norm v)

/-- A directed `SIMILAR_TO` edge with its weight. -/
structure SimEdge where
  src : ℕ
  tgt : ℕ
  weight : ℝ

/-- The `SIMILAR_TO` edges added by `build_graph` (lines 140–157): for every
pair `i < j` whose cosine similarity strictly exceeds the threshold, both
directed edges with that similarity as weight.  The whole block is guarded
by `len(embeddings) > 1`. -/
noncomputable def similarEdges {d : ℕ} (cases : List Case) (embs : List (Fin d → ℝ))
    (t : ℝ) : List SimEdge :=
  if embs.length ≤ 1 then []
  else (List.range cases.length).flatMap fun i =>
    (List.range cases.length).flatMap fun j =>
      if i < j then
        if t < cosineSim (embGet embs i) (embGet embs j) then
          [{ src := i, tgt := j, weight := cosineSim (embGet embs i) (embGet embs j) },
           { src := j, tgt := i, weight := cosineSim (embGet embs i) (embGet embs j) }]
        else []
      else []

/-! ## RecommendationEngine (`strategy_engine.py`) -/

/-- An association rule as produced by `find_association_rules` /
`_fallback_rules` and consumed by `_build_recommendations`. -/
structure Rule where
  antecedent : List String
  confidence : ℚ
  support : ℚ
  lift : ℚ
  sample_size : ℕ
deriving DecidableEq, Inhabited

/-- A recommendation record (lines 146–154 and 172–180).  The code deletes
`impact_raw` from the visible output after sorting (line 186); the field is
kept here, which does not affect any claim. -/
structure Recommendation where
  add : String
  impact : String
  impact_raw : ℚ
  with_success_rate : ℚ
  sample_size : ℕ
  confidence : String
  source : String
deriving DecidableEq, Inhabited

/-- Source 1 of `_build_recommendations` (lines 141–154): the recommendation
record built from one counterfactual entry (argument name and stats). -/
def cfRec (e : String × CFStat) : Recommendation :=
  { add := e.1
    impact := s!"+{roundHalfEven ((e.2.impact * 100 : ℚ))}% success rate"
    impact_raw := e.2.impact
    with_success_rate := e.2.with_success_rate
    sample_size := e.2.with_count
    confidence := e.2.confidence
    source := "counterfactual" }

/-- Source 1 of `_build_recommendations` (lines 141–154), continued: the
counterfactual entries kept are those with strictly positive impact and at
least 2 supporting cases, whose argument the user does not already make. -/
def cfRecs (userArgs : List String) (cf : List (String × CFStat)) :
    List Recommendation :=
  cf.filterMap fun e =>
    if e.1 ∈ userArgs then none
    else if 0 < e.2.impact ∧ 2 ≤ e.2.with_count then some (cfRec e)
    else none

/-- Lines 158–161: the `arg:`-prefixed items of a rule's antecedent, with
the tag stripped. -/
def argItems (r : Rule) : List String :=
  r.antecedent.filterMap fun a =>
    if a.startsWith "arg:" then some (a.drop 4) else none

/-- Lines 166–170: when `arg` is already recommended, upgrade the first
matching entry's confidence to `"medium"` if the confirming rule has
confidence above 0.7 and the entry's confidence is `"low"` or
`"very_low"`. -/
def updateConfFirst (arg : String) (conf : ℚ) :
    List Recommendation → List Recommendation
  | [] => []
  | r :: rs =>
    if r.add = arg then
      (if 7/10 < conf ∧ (r.confidence = "low" ∨ r.confidence = "very_low")
       then { r with confidence := "medium" } :: rs
       else r :: rs)
    else r :: updateConfFirst arg conf rs

/-- Lines 172–180: the recommendation built from an association rule.
`RecommendationEngine._conf_label` (lines 317–327) is character-for-
character the analyzer's `_confidence_label`, so `confidenceLabel` is
reused. -/
def ruleRec (arg : String) (rule : Rule) : Recommendation :=
  { add := arg
    impact := s!"appears in {roundHalfEven ((rule.confidence * 100 : ℚ))}%-confidence winning rule"
    impact_raw := rule.confidence * (1/2)
    with_success_rate := rule.confidence
    sample_size := rule.sample_size
    confidence := confidenceLabel rule.sample_size
    source := "association_rule" }

/-- The body of the inner loop over a rule's argument items
(lines 162–180). -/
def processArg (userArgs : List String) (rule : Rule)
    (recs : List Recommendation) (arg : String) : List Recommendation :=
  if arg ∈ userArgs then recs
  else if recs.any fun r => r.add = arg then updateConfFirst arg rule.confidence recs
  else recs ++ [ruleRec arg rule]

/-- `RecommendationEngine._build_recommendations` (lines 135–188):
counterfactual-sourced recommendations first, then rule-sourced ones merged
in (deduplicating by argument, possibly upgrading confidence), finally
stably sorted descending by `impact_raw`. -/
def buildRecommendations (p : Profile) (cf : List (String × CFStat))
    (rules : List Rule) : List Recommendation :=
  List.insertionSort (fun a b => b.impact_raw ≤ a.impact_raw)
    (rules.foldl
      (fun recs rule => (argItems rule).foldl (processArg p.current_arguments rule) recs)
      (cfRecs p.current_arguments cf))

/-! ## `np.nan_to_num` on extended floats

Exact real arithmetic cannot represent IEEE-754 non-finite values, so the
`emb_scores = np.nan_to_num(emb_scores, nan=0.0)` line of
`similarity_search.py` (line 41) is modelled on an extended-float type. -/

/-- A float64 value: finite, NaN, or a signed infinity. -/
inductive EFloat where
  | finite (x : ℝ)
  | nan
  | posInf
  | negInf

/-- The largest finite float64, `np.finfo(np.float64).max`. -/
noncomputable def float64Max : ℝ := 1.7976931348623157e308

/-- `np.nan_to_num(x, nan=0.0)` on one entry: NaN becomes 0.0, and — since
`posinf`/`neginf` are left at their defaults — the infinities become the
extreme finite float64 values, not 0. -/
noncomputable def nanToNum : EFloat → EFloat
  | .nan => .finite 0
  | .posInf => .finite float64Max
  | .negInf => .finite (-float64Max)
  | .finite x => .finite x

/-- A float64 value that is not finite (NaN or an infinity). -/
def EFloat.NonFinite : EFloat → Prop
  | .finite _ => False
  | _ => True

/-! ## Claim-facing relations and concrete instances -/

/-- Claim C7's merge discipline, as a relation between the first-seen
recommendation `r` and the entry `r'` that survives the merge: every field
agrees except possibly `confidence`, which may only move from
`"low"`/`"very_low"` up to `"medium"` (the only rewrite
`_build_recommendations` performs, lines 168–170). -/
def ConfUpgrade (r r' : Recommendation) : Prop :=
  r'.add = r.add ∧ r'.impact = r.impact ∧ r'.impact_raw = r.impact_raw ∧
  r'.with_success_rate = r.with_success_rate ∧ r'.sample_size = r.sample_size ∧
  r'.source = r.source ∧
  (r'.confidence = r.confidence ∨
    (r'.confidence = "medium" ∧ (r.confidence = "low" ∨ r.confidence = "very_low")))

instance (r r' : Recommendation) : Decidable (ConfUpgrade r r') := by
  unfold ConfUpgrade; infer_instance

/-- Shorthand for building concrete corpus cases in the instances below. -/
def mkCase (i : ℕ) (cn : String) (out : String) (args : List String) : Case :=
  { index := i, case_number := cn, outcome := out, job_title := "",
    company_type := "", wage_level := "", rfe_issues := [],
    arguments_made := args, similarity_score := none }

/-- The profile with no populated fields. -/
def emptyProfile : Profile :=
  { job_title := "", company_type := "", wage_level := "", rfe_issues := [],
    current_arguments := [] }

/-- Claim C4's scenario corpus: argument `X` used in 2 favorable and 0
unfavorable cases, absent from 1 favorable and 1 unfavorable case. -/
def c4Scenario : List Case :=
  [mkCase 0 "" "SUSTAINED" ["X"], mkCase 1 "" "SUSTAINED" ["X"],
   mkCase 2 "" "SUSTAINED" [], mkCase 3 "" "DISMISSED" []]

/-- The stats `counterfactual_analysis` reports for `X` on `c4Scenario`. -/
def c4Stat : CFStat :=
  { with_count := 2, without_count := 2, with_success_rate := 1,
    without_success_rate := 1/2, impact := 1/2, confidence := "very_low" }

/-- Claim C4's rounding corpus: `X` used by 3 cases of which 1 favorable,
so the with-rate is 1/3, which is not representable in 3 decimals. -/
def c4Rounding : List Case :=
  [mkCase 0 "" "SUSTAINED" ["X"], mkCase 1 "" "DISMISSED" ["X"],
   mkCase 2 "" "DISMISSED" ["X"]]

/-- Counterfactual stats for claim C7's and C10's concrete instances. -/
def cfStatA : CFStat :=
  { with_count := 3, without_count := 1, with_success_rate := 1,
    without_success_rate := 0, impact := 1/2, confidence := "low" }

/-- A stat with positive impact but only one supporting case. -/
def cfStatB : CFStat :=
  { with_count := 1, without_count := 3, with_success_rate := 1,
    without_success_rate := 0, impact := 1/4, confidence := "very_low" }

/-- Claim C7's concrete profile: the user already argues `"held"`. -/
def c7Profile : Profile :=
  { job_title := "", company_type := "", wage_level := "", rfe_issues := [],
    current_arguments := ["held"] }

/-- Claim C7's concrete counterfactual table. -/
def c7Cf : List (String × CFStat) :=
  [("expert_letter", cfStatA), ("held", cfStatA), ("prior_approvals", cfStatB)]

/-- Claim C7's concrete rule list: a high-confidence rule that surfaces
`expert_letter` (already counterfactual-sourced) and `wage_survey` (new). -/
def c7Rules : List Rule :=
  [{ antecedent := ["arg:expert_letter", "arg:wage_survey", "comptype:consulting"],
     confidence := 4/5, support := 1/10, lift := 0, sample_size := 4 }]

/-- Claim C10's concrete counterfactual table. -/
def c10Cf : List (String × CFStat) :=
  [("expert_letter", cfStatA), ("prior_approvals", cfStatB)]

/-- Claim C1's and C6's concrete corpora use one-dimensional embeddings so
the cosine computations stay in closed form. -/
noncomputable def c1Embs : List (Fin 1 → ℝ) := [![1]]

/-- A one-case corpus for claim C1's `top_k = 0` counterexample. -/
def c1Cases : List Case := [mkCase 0 "" "SUSTAINED" []]

/-- A two-case corpus (indices aligned) for claim C1's witness. -/
def c1WCases : List Case := [mkCase 0 "A-1" "SUSTAINED" [], mkCase 1 "A-2" "DISMISSED" []]

/-- Embeddings for claim C1's witness corpus. -/
noncomputable def c1WEmbs : List (Fin 1 → ℝ) := [![1], ![1]]

/-- A two-case corpus for claim C2's witness. -/
def c2Cases : List Case := [mkCase 0 "" "SUSTAINED" [], mkCase 1 "" "DISMISSED" []]

/-- Parallel unit embeddings, cosine similarity 1. -/
noncomputable def c2Embs : List (Fin 1 → ℝ) := [![1], ![1]]

/-- Claim C6's corpus: three cases whose centroid is `[1/3]`, so the third
case (embedding `[-1]`) gets embedding similarity −1 and a negative
combined score under the empty profile. -/
def c6Cases : List Case :=
  [mkCase 0 "" "SUSTAINED" [], mkCase 1 "" "SUSTAINED" [], mkCase 2 "" "DISMISSED" []]

/-- Embeddings for claim C6's corpus. -/
noncomputable def c6Embs : List (Fin 1 → ℝ) := [![1], ![1], ![-1]]

/-! ## Rounding lemmas -/

theorem roundHalfEven_cases {α : Type} [LinearOrderedField α] [FloorRing α] (x : α) :
    roundHalfEven x = ⌊x⌋ ∨ (roundHalfEven x = ⌊x⌋ + 1 ∧ 1/2 ≤ x - ⌊x⌋) := by
  unfold roundHalfEven
  split_ifs with h1 h2 h3
  · exact Or.inl rfl
  · exact Or.inr ⟨rfl, le_of_lt h2⟩
  · exact Or.inl rfl
  · exact Or.inr ⟨rfl, le_of_not_lt h1⟩

theorem roundHalfEven_nonneg {α : Type} [LinearOrderedField α] [FloorRing α]
    {x : α} (hx : 0 ≤ x) : 0 ≤ roundHalfEven x := by
  have hf : 0 ≤ ⌊x⌋ := Int.floor_nonneg.mpr hx
  rcases roundHalfEven_cases x with h | ⟨h, _⟩ <;> rw [h] <;> omega

theorem roundHalfEven_le_of_le {α : Type} [LinearOrderedField α] [FloorRing α]
    {x : α} {B : ℤ} (hx : x ≤ B) : roundHalfEven x ≤ B := by
  have hfB : ⌊x⌋ ≤ B := by
    have h1 : ⌊x⌋ ≤ ⌊(B : α)⌋ := Int.floor_le_floor hx
    simpa using h1
  rcases roundHalfEven_cases x with h | ⟨h, hhalf⟩ <;> rw [h]
  · exact hfB
  · by_contra hc
    have hBf : ⌊x⌋ = B := by omega
    rw [hBf] at hhalf
    have hxB : x - (B : α) ≤ 0 := by linarith
    linarith

theorem pyRound3_nonneg {α : Type} [LinearOrderedField α] [FloorRing α]
    {x : α} (hx : 0 ≤ x) : 0 ≤ pyRound3 x := by
  unfold pyRound3
  have h : (0 : ℤ) ≤ roundHalfEven (x * 1000) :=
    roundHalfEven_nonneg (by positivity)
  positivity

theorem pyRound3_le_one {α : Type} [LinearOrderedField α] [FloorRing α]
    {x : α} (hx : x ≤ 1) : pyRound3 x ≤ 1 := by
  unfold pyRound3
  rw [div_le_one (by norm_num)]
  have h : roundHalfEven (x * 1000) ≤ (1000 : ℤ) :=
    roundHalfEven_le_of_le (by push_cast; linarith)
  exact_mod_cast h

/-! ## Claim C9 -/

/-- C9: calling `counterfactual_analysis` with an empty subset list is the
same as calling it with no subset at all — `cases_subset or self.cases`
makes the empty list fall back to the analyzer's full corpus, so the output
equals the analysis of the whole case list. -/
theorem c9_empty_subset_falls_back (selfCases : List Case) :
    counterfactualAnalysis selfCases (some []) = counterfactualAnalysis selfCases none :=
  rfl

/-! ## Claim C5 -/

/-- C5: `calculate_success_probability` always returns a probability in
[0,1] (clamping holds even when base probability plus boost leaves the
interval), and on an empty similar-case list it returns probability 0.0 and
sample size 0 (no exception: the function is total). -/
theorem c5_probability_clamped (selfCases : List Case) (p : Profile)
    (similar : List Case) :
    0 ≤ (calcSuccessProbability selfCases p similar).probability ∧
    (calcSuccessProbability selfCases p similar).probability ≤ 1 ∧
    (calcSuccessProbability selfCases p []).probability = 0 ∧
    (calcSuccessProbability selfCases p []).sample_size = 0 := by
  refine ⟨?_, ?_, rfl, rfl⟩ <;>
    · unfold calcSuccessProbability
      split
      · norm_num
      · dsimp only
        first
        | exact pyRound3_nonneg (le_min (by norm_num) (le_max_left _ _))
        | exact pyRound3_le_one (min_le_left _ _)

/-! ## Claim C4 -/

/-- C4 (amended): every entry reported by `counterfactual_analysis` carries
the favorable fraction of the with-partition and the without-partition
rounded to 3 decimals (ties to even), and `impact` is the difference of the
two unrounded rates, rounded to 3 decimals. -/
theorem c4_counterfactual_rates (cases : List Case) (arg : String) (stat : CFStat)
    (h : (arg, stat) ∈ counterfactualAnalysis cases none) :
    stat.with_success_rate =
      pyRound3 (specFavorableFraction (cases.filter fun c => arg ∈ c.arguments_made)) ∧
    stat.without_success_rate =
      pyRound3 (specFavorableFraction (cases.filter fun c => arg ∉ c.arguments_made)) ∧
    stat.impact =
      pyRound3 (specFavorableFraction (cases.filter fun c => arg ∈ c.arguments_made) -
        specFavorableFraction (cases.filter fun c => arg ∉ c.arguments_made)) := by
  unfold counterfactualAnalysis at h
  have h2 := (List.perm_insertionSort
    (fun a b : String × CFStat => b.2.impact ≤ a.2.impact) _).mem_iff.mp h
  obtain ⟨a, _, heq⟩ := List.mem_map.mp h2
  simp only [Prod.mk.injEq] at heq
  obtain ⟨rfl, rfl⟩ := heq
  exact ⟨rfl, rfl, rfl⟩

/-- Witness for C4: on the scenario corpus the reported stats for `X` are
`with_success_rate = 1.0`, `without_success_rate = 0.5`, `impact = 0.5`,
and they equal the rounded favorable fractions. -/
theorem c4_scenario_witness :
    (("X", c4Stat) ∈ counterfactualAnalysis c4Scenario none) ∧
    (c4Stat.with_success_rate = 1 ∧ c4Stat.without_success_rate = 1/2 ∧
      c4Stat.impact = 1/2) ∧
    (c4Stat.with_success_rate =
      pyRound3 (specFavorableFraction (c4Scenario.filter fun c => "X" ∈ c.arguments_made)) ∧
    c4Stat.without_success_rate =
      pyRound3 (specFavorableFraction (c4Scenario.filter fun c => "X" ∉ c.arguments_made)) ∧
    c4Stat.impact =
      pyRound3 (specFavorableFraction (c4Scenario.filter fun c => "X" ∈ c.arguments_made) -
        specFavorableFraction (c4Scenario.filter fun c => "X" ∉ c.arguments_made))) :=
  ⟨by decide, by decide, c4_counterfactual_rates c4Scenario "X" c4Stat (by decide)⟩

/-- Counterexample for C4 as stated: on `c4Rounding` the favorable fraction
among cases using `X` is 1/3, but `counterfactual_analysis` reports
`with_success_rate = 0.333 ≠ 1/3` (3-decimal rounding). -/
theorem c4_rounding_counterexample :
    (counterfactualAnalysis c4Rounding none).lookup "X" = some
      { with_count := 3, without_count := 0, with_success_rate := 333/1000,
        without_success_rate := 0, impact := 333/1000, confidence := "low" } ∧
    specFavorableFraction (c4Rounding.filter fun c => "X" ∈ c.arguments_made) = 1/3 ∧
    ((333 : ℚ)/1000) ≠ 1/3 := by
  decide

/-! ## Claim C8 -/

/-- C8 (amended): `np.nan_to_num(v, nan=0.0)` replaces a NaN entry of the
embedding-similarity vector with 0, but replaces the infinities with the
extreme finite float64 values `±1.7976931348623157e308`, not with 0;
finite entries are unchanged. -/
theorem c8_nan_to_num_amended (v : List EFloat) (e : EFloat) (_he : e ∈ v) :
    (e = EFloat.nan → nanToNum e = EFloat.finite 0) ∧
    (e = EFloat.posInf → nanToNum e = EFloat.finite float64Max) ∧
    (e = EFloat.negInf → nanToNum e = EFloat.finite (-float64Max)) ∧
    (∀ x, e = EFloat.finite x → nanToNum e = e) := by
  refine ⟨fun h => ?_, fun h => ?_, fun h => ?_, fun x h => ?_⟩ <;> subst h <;> rfl

/-- Witness for C8's amended statement at a concrete vector. -/
theorem c8_nan_witness :
    (EFloat.nan ∈ [EFloat.nan, EFloat.posInf]) ∧
    ((EFloat.nan = EFloat.nan → nanToNum EFloat.nan = EFloat.finite 0) ∧
    (EFloat.nan = EFloat.posInf → nanToNum EFloat.nan = EFloat.finite float64Max) ∧
    (EFloat.nan = EFloat.negInf → nanToNum EFloat.nan = EFloat.finite (-float64Max)) ∧
    (∀ x, EFloat.nan = EFloat.finite x → nanToNum EFloat.nan = EFloat.nan)) :=
  ⟨by simp, c8_nan_to_num_amended [EFloat.nan, EFloat.posInf] EFloat.nan (by simp)⟩

/-- Counterexample for C8 as stated: `+inf` is a non-finite entry, yet
`np.nan_to_num(·, nan=0.0)` maps it to the largest finite float64, not 0. -/
theorem c8_inf_counterexample :
    EFloat.NonFinite EFloat.posInf ∧
    nanToNum EFloat.posInf ≠ EFloat.finite 0 ∧
    nanToNum EFloat.posInf = EFloat.finite float64Max := by
  refine ⟨trivial, fun h => ?_, rfl⟩
  rw [show nanToNum EFloat.posInf = EFloat.finite float64Max from rfl] at h
  injection h with h2
  norm_num [float64Max] at h2

/-! ## Merge lemmas for `_build_recommendations` -/

theorem ConfUpgrade.refl (r : Recommendation) : ConfUpgrade r r :=
  ⟨rfl, rfl, rfl, rfl, rfl, rfl, Or.inl rfl⟩

theorem ConfUpgrade.trans {r r' r'' : Recommendation}
    (h1 : ConfUpgrade r r') (h2 : ConfUpgrade r' r'') : ConfUpgrade r r'' := by
  obtain ⟨a1, b1, c1, d1, e1, f1, g1⟩ := h1
  obtain ⟨a2, b2, c2, d2, e2, f2, g2⟩ := h2
  refine ⟨a2.trans a1, b2.trans b1, c2.trans c1, d2.trans d1, e2.trans e1, f2.trans f1, ?_⟩
  rcases g2 with g2 | ⟨g2, g2'⟩
  · rw [g2]; exact g1
  · rcases g1 with g1 | ⟨g1, g1'⟩
    · rw [g1] at g2'; exact Or.inr ⟨g2, g2'⟩
    · rw [g1] at g2'; rcases g2' with g2' | g2' <;> simp at g2'

theorem updateConfFirst_map_add (arg : String) (conf : ℚ) (l : List Recommendation) :
    (updateConfFirst arg conf l).map (fun r => r.add) = l.map (fun r => r.add) := by
  induction l with
  | nil => rfl
  | cons r rs ih =>
    unfold updateConfFirst
    split_ifs <;> simp [ih]

theorem updateConfFirst_mem (arg : String) (conf : ℚ) (l : List Recommendation)
    (r' : Recommendation) (h : r' ∈ updateConfFirst arg conf l) :
    ∃ r ∈ l, ConfUpgrade r r' := by
  induction l with
  | nil => simp [updateConfFirst] at h
  | cons r rs ih =>
    unfold updateConfFirst at h
    split_ifs at h with h1 h2
    · rcases List.mem_cons.mp h with h3 | h3
      · exact ⟨r, List.mem_cons_self r rs,
          h3 ▸ ⟨rfl, rfl, rfl, rfl, rfl, rfl, Or.inr ⟨rfl, h2.2⟩⟩⟩
      · exact ⟨r', List.mem_cons_of_mem r h3, ConfUpgrade.refl r'⟩
    · rcases List.mem_cons.mp h with h3 | h3
      · exact ⟨r, List.mem_cons_self r rs, h3 ▸ ConfUpgrade.refl r⟩
      · exact ⟨r', List.mem_cons_of_mem r h3, ConfUpgrade.refl r'⟩
    · rcases List.mem_cons.mp h with h3 | h3
      · exact ⟨r, List.mem_cons_self r rs, h3 ▸ ConfUpgrade.refl r⟩
      · obtain ⟨r0, hr0, hu⟩ := ih h3
        exact ⟨r0, List.mem_cons_of_mem r hr0, hu⟩

theorem updateConfFirst_forall (arg : String) (conf : ℚ) (l : List Recommendation)
    (r : Recommendation) (h : r ∈ l) :
    ∃ r' ∈ updateConfFirst arg conf l, ConfUpgrade r r' := by
  induction l with
  | nil => simp at h
  | cons r0 rs ih =>
    unfold updateConfFirst
    split_ifs with h1 h2
    · rcases List.mem_cons.mp h with h3 | h3
      · subst h3
        exact ⟨{ r with confidence := "medium" }, List.mem_cons_self _ _,
          ⟨rfl, rfl, rfl, rfl, rfl, rfl, Or.inr ⟨rfl, h2.2⟩⟩⟩
      · exact ⟨r, List.mem_cons_of_mem _ h3, ConfUpgrade.refl r⟩
    · rcases List.mem_cons.mp h with h3 | h3
      · subst h3
        exact ⟨r, List.mem_cons_self _ _, ConfUpgrade.refl r⟩
      · exact ⟨r, List.mem_cons_of_mem _ h3, ConfUpgrade.refl r⟩
    · rcases List.mem_cons.mp h with h3 | h3
      · subst h3
        exact ⟨r, List.mem_cons_self _ _, ConfUpgrade.refl r⟩
      · obtain ⟨r', hr', hu⟩ := ih h3
        exact ⟨r', List.mem_cons_of_mem _ hr', hu⟩

theorem processArg_mem (u : List String) (rule : Rule) (recs : List Recommendation)
    (arg : String) (r' : Recommendation) (h : r' ∈ processArg u rule recs arg) :
    (∃ r ∈ recs, ConfUpgrade r r') ∨ (r' = ruleRec arg rule ∧ arg ∉ u) := by
  unfold processArg at h
  split_ifs at h with h1 h2
  · exact Or.inl ⟨r', h, ConfUpgrade.refl r'⟩
  · exact Or.inl (updateConfFirst_mem _ _ _ _ h)
  · rcases List.mem_append.mp h with h3 | h3
    · exact Or.inl ⟨r', h3, ConfUpgrade.refl r'⟩
    · exact Or.inr ⟨List.mem_singleton.mp h3, h1⟩

theorem processArg_forall (u : List String) (rule : Rule) (recs : List Recommendation)
    (arg : String) (r : Recommendation) (h : r ∈ recs) :
    ∃ r' ∈ processArg u rule recs arg, ConfUpgrade r r' := by
  unfold processArg
  split_ifs with h1 h2
  · exact ⟨r, h, ConfUpgrade.refl r⟩
  · exact updateConfFirst_forall _ _ _ _ h
  · exact ⟨r, List.mem_append_left _ h, ConfUpgrade.refl r⟩

theorem processArg_map_add (u : List String) (rule : Rule) (recs : List Recommendation)
    (arg : String) :
    (processArg u rule recs arg).map (fun r => r.add) = recs.map (fun r => r.add) ∨
    ((processArg u rule recs arg).map (fun r => r.add) = recs.map (fun r => r.add) ++ [arg] ∧
      arg ∉ recs.map (fun r => r.add)) := by
  unfold processArg
  split_ifs with h1 h2
  · exact Or.inl rfl
  · exact Or.inl (updateConfFirst_map_add _ _ _)
  · refine Or.inr ⟨by simp [ruleRec], fun hc => h2 ?_⟩
    rw [List.any_eq_true]
    obtain ⟨r0, hr0, hadd⟩ := List.mem_map.mp hc
    exact ⟨r0, hr0, by simp [hadd]⟩

theorem foldl_preserve {β : Type} (P : List Recommendation → Prop)
    (f : List Recommendation → β → List Recommendation)
    (H : ∀ recs b, P recs → P (f recs b)) :
    ∀ (l : List β) (recs : List Recommendation), P recs → P (l.foldl f recs) := by
  intro l
  induction l with
  | nil => intro recs h; exact h
  | cons b bs ih => intro recs h; exact ih _ (H recs b h)

theorem cfRecs_mem (u : List String) (cf : List (String × CFStat))
    (r : Recommendation) (h : r ∈ cfRecs u cf) :
    ∃ e ∈ cf, r = cfRec e ∧ e.1 ∉ u ∧ 0 < e.2.impact ∧ 2 ≤ e.2.with_count := by
  obtain ⟨e, he, hfe⟩ := List.mem_filterMap.mp h
  refine ⟨e, he, ?_⟩
  split_ifs at hfe with h1 h2
  exact ⟨(Option.some.inj hfe).symm, h1, h2.1, h2.2⟩

theorem cfRecs_forall (u : List String) (cf : List (String × CFStat))
    (e : String × CFStat) (he : e ∈ cf) (h1 : e.1 ∉ u)
    (h2 : 0 < e.2.impact) (h3 : 2 ≤ e.2.with_count) :
    cfRec e ∈ cfRecs u cf := by
  unfold cfRecs
  apply List.mem_filterMap.mpr
  refine ⟨e, he, ?_⟩
  rw [if_neg h1, if_pos ⟨h2, h3⟩]

theorem cfRecs_adds_sublist (u : List String) (cf : List (String × CFStat)) :
    ((cfRecs u cf).map (fun r => r.add)).Sublist (cf.map Prod.fst) := by
  induction cf with
  | nil => simp [cfRecs]
  | cons e es ih =>
    unfold cfRecs at ih ⊢
    rw [List.filterMap_cons]
    split_ifs with h1 h2
    · exact ih.cons _
    · simpa [cfRec] using ih.cons₂ e.1
    · exact ih.cons _

theorem keys_nodup_unique {cf : List (String × CFStat)}
    (hnd : (cf.map Prod.fst).Nodup) {a : String} {b1 b2 : CFStat}
    (h1 : (a, b1) ∈ cf) (h2 : (a, b2) ∈ cf) : b1 = b2 := by
  induction cf with
  | nil => simp at h1
  | cons e es ih =>
    simp only [List.map_cons, List.nodup_cons] at hnd
    rcases List.mem_cons.mp h1 with g1 | g1 <;> rcases List.mem_cons.mp h2 with g2 | g2
    · have h := g1.trans g2.symm
      exact ((Prod.mk.injEq _ _ _ _).mp h).2
    · exfalso; apply hnd.1
      rw [← g1]
      exact List.mem_map.mpr ⟨(a, b2), g2, rfl⟩
    · exfalso; apply hnd.1
      rw [← g2]
      exact List.mem_map.mpr ⟨(a, b1), g1, rfl⟩
    · exact ih hnd.2 g1 g2

/-! ## Invariants of `_build_recommendations` -/

theorem buildRecs_invariant (p : Profile) (cf : List (String × CFStat))
    (rules : List Rule) (Q : Recommendation → Prop)
    (hbase : ∀ r ∈ cfRecs p.current_arguments cf, Q r)
    (hrule : ∀ arg rule, arg ∉ p.current_arguments → Q (ruleRec arg rule))
    (hupg : ∀ r r', Q r → ConfUpgrade r r' → Q r') :
    ∀ r ∈ buildRecommendations p cf rules, Q r := by
  have stepArg : ∀ (rule : Rule) recs arg, (∀ r ∈ recs, Q r) →
      ∀ r ∈ processArg p.current_arguments rule recs arg, Q r := by
    intro rule recs arg hP r hr
    rcases processArg_mem _ rule recs arg r hr with ⟨r0, hr0, hup⟩ | ⟨heq, hnu⟩
    · exact hupg r0 r (hP r0 hr0) hup
    · rw [heq]
      exact hrule arg rule hnu
  have hP2 := foldl_preserve (fun recs => ∀ r ∈ recs, Q r)
    (fun recs rule => (argItems rule).foldl (processArg p.current_arguments rule) recs)
    (fun recs rule h => foldl_preserve (fun recs => ∀ r ∈ recs, Q r)
      (processArg p.current_arguments rule)
      (fun rs a h2 => stepArg rule rs a h2) (argItems rule) recs h)
    rules (cfRecs p.current_arguments cf) hbase
  intro r hr
  refine hP2 r ?_
  rw [buildRecommendations] at hr
  exact (List.perm_insertionSort _ _).mem_iff.mp hr

theorem buildRecs_keeps_cf (p : Profile) (cf : List (String × CFStat))
    (rules : List Rule) :
    ∀ r0 ∈ cfRecs p.current_arguments cf,
      ∃ r ∈ buildRecommendations p cf rules, ConfUpgrade r0 r := by
  have hP2 := foldl_preserve
    (fun recs => ∀ r0 ∈ cfRecs p.current_arguments cf, ∃ r ∈ recs, ConfUpgrade r0 r)
    (fun recs rule => (argItems rule).foldl (processArg p.current_arguments rule) recs)
    (fun recs rule h => foldl_preserve
      (fun recs => ∀ r0 ∈ cfRecs p.current_arguments cf, ∃ r ∈ recs, ConfUpgrade r0 r)
      (processArg p.current_arguments rule)
      (fun rs a h2 r0 hr0 => by
        obtain ⟨r, hr, hup⟩ := h2 r0 hr0
        obtain ⟨r', hr', hup'⟩ := processArg_forall p.current_arguments rule rs a r hr
        exact ⟨r', hr', hup.trans hup'⟩)
      (argItems rule) recs h)
    rules (cfRecs p.current_arguments cf)
    (fun r0 h => ⟨r0, h, ConfUpgrade.refl r0⟩)
  intro r0 hr0
  obtain ⟨r, hr, hup⟩ := hP2 r0 hr0
  refine ⟨r, ?_, hup⟩
  rw [buildRecommendations]
  exact (List.perm_insertionSort _ _).mem_iff.mpr hr

theorem buildRecs_adds_nodup (p : Profile) (cf : List (String × CFStat))
    (rules : List Rule) (hnd : (cf.map Prod.fst).Nodup) :
    ((buildRecommendations p cf rules).map (fun r => r.add)).Nodup := by
  have hP2 := foldl_preserve (fun recs => (recs.map (fun r => r.add)).Nodup)
    (fun recs rule => (argItems rule).foldl (processArg p.current_arguments rule) recs)
    (fun recs rule h => foldl_preserve (fun recs => (recs.map (fun r => r.add)).Nodup)
      (processArg p.current_arguments rule)
      (fun rs a h2 => by
        rcases processArg_map_add p.current_arguments rule rs a with heq | ⟨heq, hnotin⟩
        · rw [heq]; exact h2
        · rw [heq]
          simp only [List.nodup_append, List.nodup_singleton, true_and]
          exact ⟨h2, by simpa using hnotin⟩)
      (argItems rule) recs h)
    rules (cfRecs p.current_arguments cf)
    ((cfRecs_adds_sublist p.current_arguments cf).nodup hnd)
  rw [buildRecommendations]
  exact (((List.perm_insertionSort _ _).map (fun r : Recommendation => r.add)).nodup_iff).mpr hP2

/-! ## Claim C10 -/

/-- C10: an argument appears as a counterfactual-sourced recommendation only
if its counterfactual entry has strictly positive impact and `with_count ≥ 2`;
with unique counterfactual keys, an argument whose entry has fewer than 2
supporting cases never appears from that source. -/
theorem c10_counterfactual_source_guard (p : Profile) (cf : List (String × CFStat))
    (rules : List Rule) :
    (∀ r ∈ buildRecommendations p cf rules, r.source = "counterfactual" →
      ∃ s, (r.add, s) ∈ cf ∧ 0 < s.impact ∧ 2 ≤ s.with_count) ∧
    ((cf.map Prod.fst).Nodup → ∀ arg s, (arg, s) ∈ cf → s.with_count < 2 →
      ∀ r ∈ buildRecommendations p cf rules, r.source = "counterfactual" →
        r.add ≠ arg) := by
  have hPf : ∀ r ∈ buildRecommendations p cf rules, r.source = "counterfactual" →
      ∃ s, (r.add, s) ∈ cf ∧ 0 < s.impact ∧ 2 ≤ s.with_count := by
    apply buildRecs_invariant
    · intro r hr hsrc
      obtain ⟨e, he, rfl, _, h2, h3⟩ := cfRecs_mem _ cf r hr
      exact ⟨e.2, by simpa [cfRec] using he, h2, h3⟩
    · intro arg rule _ hsrc
      simp [ruleRec] at hsrc
    · intro r r' hQ hup hsrc
      obtain ⟨hadd, _, _, _, _, hsrcEq, _⟩ := hup
      obtain ⟨s, hs, hi, hc⟩ := hQ (by rw [← hsrcEq]; exact hsrc)
      exact ⟨s, by rw [hadd]; exact hs, hi, hc⟩
  refine ⟨hPf, fun hnd arg s hmem hcount r hr hsrc heq => ?_⟩
  obtain ⟨s', hs', _, hc⟩ := hPf r hr hsrc
  rw [heq] at hs'
  have hss : s' = s := keys_nodup_unique hnd hs' hmem
  rw [hss] at hc
  omega

/-- Witness for C10 on a concrete table: `prior_approvals` has positive
impact but `with_count = 1`, so it is never counterfactual-sourced. -/
theorem c10_witness :
    ((c10Cf.map Prod.fst).Nodup ∧ ("prior_approvals", cfStatB) ∈ c10Cf ∧
      cfStatB.with_count < 2 ∧ 0 < cfStatB.impact) ∧
    (∀ r ∈ buildRecommendations emptyProfile c10Cf [], r.source = "counterfactual" →
      ∃ s, (r.add, s) ∈ c10Cf ∧ 0 < s.impact ∧ 2 ≤ s.with_count) ∧
    (∀ r ∈ buildRecommendations emptyProfile c10Cf [], r.source = "counterfactual" →
      r.add ≠ "prior_approvals") :=
  ⟨⟨by decide, by decide, by decide, by decide⟩,
   (c10_counterfactual_source_guard emptyProfile c10Cf []).1,
   (c10_counterfactual_source_guard emptyProfile c10Cf []).2 (by decide)
     "prior_approvals" cfStatB (by decide) (by decide)⟩

/-! ## Claim C7 -/

/-- C7: the merged recommendation list never contains an argument already in
the profile's `current_arguments`; every counterfactual-sourced (first-seen)
entry survives the merge with all fields intact except a possible
confidence upgrade (`low`/`very_low` → `medium`, never a downgrade); and —
with unique counterfactual keys — no argument is recommended twice. -/
theorem c7_merge_discipline (p : Profile) (cf : List (String × CFStat))
    (rules : List Rule) :
    (∀ r ∈ buildRecommendations p cf rules, r.add ∉ p.current_arguments) ∧
    (∀ r0 ∈ cfRecs p.current_arguments cf,
      ∃ r ∈ buildRecommendations p cf rules, ConfUpgrade r0 r) ∧
    ((cf.map Prod.fst).Nodup →
      ((buildRecommendations p cf rules).map (fun r => r.add)).Nodup) := by
  refine ⟨?_, buildRecs_keeps_cf p cf rules, buildRecs_adds_nodup p cf rules⟩
  apply buildRecs_invariant
  · intro r hr
    obtain ⟨e, _, rfl, h1, _, _⟩ := cfRecs_mem _ cf r hr
    exact h1
  · intro arg rule hnu
    exact hnu
  · intro r r' hQ hup
    obtain ⟨hadd, _⟩ := hup
    rw [hadd]
    exact hQ

/-- Witness for C7 on concrete inputs: the user's `held` argument is never
recommended, both counterfactual survivors keep their data, and no argument
is recommended twice. -/
theorem c7_witness :
    ((c7Cf.map Prod.fst).Nodup) ∧
    ((∀ r ∈ buildRecommendations c7Profile c7Cf c7Rules,
        r.add ∉ c7Profile.current_arguments) ∧
     (∀ r0 ∈ cfRecs c7Profile.current_arguments c7Cf,
        ∃ r ∈ buildRecommendations c7Profile c7Cf c7Rules, ConfUpgrade r0 r) ∧
     ((buildRecommendations c7Profile c7Cf c7Rules).map (fun r => r.add)).Nodup) :=
  ⟨by decide,
   (c7_merge_discipline c7Profile c7Cf c7Rules).1,
   (c7_merge_discipline c7Profile c7Cf c7Rules).2.1,
   (c7_merge_discipline c7Profile c7Cf c7Rules).2.2 (by decide)⟩

/-! ## Score bounds for SimilaritySearch -/

theorem jobTitleSim_mem (a b : String) : 0 ≤ jobTitleSim a b ∧ jobTitleSim a b ≤ 1 := by
  unfold jobTitleSim
  split_ifs with h
  · norm_num
  · push_neg at h
    have hne : (tokenSet a ∪ tokenSet b).Nonempty :=
      Finset.Nonempty.inl (Finset.nonempty_iff_ne_empty.mpr h.1)
    have hpos : (0 : ℚ) < ((tokenSet a ∪ tokenSet b).card : ℚ) := by
      exact_mod_cast Finset.card_pos.mpr hne
    constructor
    · positivity
    · rw [div_le_one hpos]
      exact_mod_cast Finset.card_le_card
        ((Finset.inter_subset_left).trans Finset.subset_union_left)

theorem wageOrder_le_four (s : String) : wageOrder s ≤ 4 := by
  unfold wageOrder
  split_ifs <;> norm_num

theorem wageLevelSim_mem (a b : String) : 0 ≤ wageLevelSim a b ∧ wageLevelSim a b ≤ 1 := by
  unfold wageLevelSim
  split_ifs with h
  · norm_num
  · push_neg at h
    have h1a : (1 : ℚ) ≤ (wageOrder a : ℚ) := by
      exact_mod_cast Nat.one_le_iff_ne_zero.mpr h.1
    have h1b : (1 : ℚ) ≤ (wageOrder b : ℚ) := by
      exact_mod_cast Nat.one_le_iff_ne_zero.mpr h.2
    have h4a : (wageOrder a : ℚ) ≤ 4 := by exact_mod_cast wageOrder_le_four a
    have h4b : (wageOrder b : ℚ) ≤ 4 := by exact_mod_cast wageOrder_le_four b
    have habs : |(wageOrder a : ℚ) - (wageOrder b : ℚ)| ≤ 3 :=
      abs_le.mpr ⟨by linarith, by linarith⟩
    have habs0 : 0 ≤ |(wageOrder a : ℚ) - (wageOrder b : ℚ)| := abs_nonneg _
    constructor <;> [linarith; linarith]

theorem jaccardSet_mem (a b : Finset String) : 0 ≤ jaccardSet a b ∧ jaccardSet a b ≤ 1 := by
  unfold jaccardSet
  split_ifs with h1 h2
  · norm_num
  · norm_num
  · have hpos : (0 : ℚ) < ((a ∪ b).card : ℚ) := by
      exact_mod_cast Finset.card_pos.mpr (Finset.nonempty_iff_ne_empty.mpr h2)
    constructor
    · positivity
    · rw [div_le_one hpos]
      exact_mod_cast Finset.card_le_card
        ((Finset.inter_subset_left).trans Finset.subset_union_left)

theorem fieldPairs_bounds (p : Profile) (c : Case) :
    ∀ q ∈ fieldPairs p c, (0 ≤ q.1 ∧ q.1 ≤ 1) ∧ 0 < q.2 := by
  intro q hq
  simp only [fieldPairs, List.mem_append] at hq
  rcases hq with ((h | h) | h) | h
  · split_ifs at h with hc
    · simp only [List.mem_singleton] at h
      subst h
      exact ⟨jobTitleSim_mem _ _, by norm_num⟩
    · simp at h
  · split_ifs at h with hc hct
    · simp only [List.mem_singleton] at h
      subst h
      exact ⟨⟨by norm_num, by norm_num⟩, by norm_num⟩
    · simp only [List.mem_singleton] at h
      subst h
      exact ⟨⟨by norm_num, by norm_num⟩, by norm_num⟩
    · simp at h
  · split_ifs at h with hc
    · simp only [List.mem_singleton] at h
      subst h
      exact ⟨wageLevelSim_mem _ _, by norm_num⟩
    · simp at h
  · split_ifs at h with hc
    · simp only [List.mem_singleton] at h
      subst h
      exact ⟨jaccardSet_mem _ _, by norm_num⟩
    · simp at h

theorem sum_map_div (l : List (ℚ × ℚ)) (f : ℚ × ℚ → ℚ) (W : ℚ) :
    (l.map fun q => f q / W).sum = (l.map f).sum / W := by
  induction l with
  | nil => simp
  | cons x xs ih => simp [ih, add_div]

theorem metadataSimilarity_mem (p : Profile) (c : Case) :
    0 ≤ metadataSimilarity p c ∧ metadataSimilarity p c ≤ 1 := by
  unfold metadataSimilarity
  split_ifs with h
  · norm_num
  · have hb := fieldPairs_bounds p c
    have hl : fieldPairs p c ≠ [] := by simpa [List.isEmpty_iff] using h
    have hW : 0 < ((fieldPairs p c).map fun q2 => q2.2).sum := by
      apply List.sum_pos
      · intro x hx
        obtain ⟨q, hq, rfl⟩ := List.mem_map.mp hx
        exact (hb q hq).2
      · simpa using hl
    rw [sum_map_div (fieldPairs p c) (fun q => q.1 * q.2)]
    constructor
    · apply div_nonneg _ hW.le
      apply List.sum_nonneg
      intro x hx
      obtain ⟨q, hq, rfl⟩ := List.mem_map.mp hx
      exact mul_nonneg (hb q hq).1.1 (hb q hq).2.le
    · rw [div_le_one hW]
      apply List.sum_le_sum
      intro q hq
      calc q.1 * q.2 ≤ 1 * q.2 :=
            mul_le_mul_of_nonneg_right (hb q hq).1.2 (hb q hq).2.le
        _ = q.2 := one_mul _

theorem metaGet_mem (p : Profile) (cases : List Case) (i : ℕ) :
    0 ≤ metaGet p cases i ∧ metaGet p cases i ≤ 1 := by
  unfold metaGet metaScores
  by_cases hi : i < (cases.map fun c => metadataSimilarity p c).length
  · rw [List.getD_eq_getElem?_getD, List.getElem?_eq_getElem hi, Option.getD_some]
    have hlen : i < cases.length := by simpa using hi
    rw [List.getElem_map]
    exact metadataSimilarity_mem p _
  · rw [List.getD_eq_getElem?_getD, List.getElem?_eq_none (le_of_not_lt hi),
      Option.getD_none]
    norm_num

theorem l2norm_eq_zero_iff {d : ℕ} (v : Fin d → ℝ) :
    l2norm v = 0 ↔ ∀ j, v j = 0 := by
  unfold l2norm
  rw [Real.sqrt_eq_zero']
  constructor
  · intro h j
    have hsum : ∑ j, v j ^ 2 = 0 :=
      le_antisymm h (Finset.sum_nonneg fun _ _ => sq_nonneg _)
    have := (Finset.sum_eq_zero_iff_of_nonneg
      (fun j _ => sq_nonneg (v j))).mp hsum j (Finset.mem_univ j)
    exact pow_eq_zero_iff (by norm_num) |>.mp this
  · intro h
    simp [h]

theorem abs_dotR_le {d : ℕ} (u v : Fin d → ℝ) :
    |dotR u v| ≤ l2norm u * l2norm v := by
  unfold dotR l2norm
  rw [abs_le]
  constructor
  · have h := Real.sum_mul_le_sqrt_mul_sqrt Finset.univ (fun j => -(u j)) v
    simp only [neg_mul, Finset.sum_neg_distrib, neg_sq] at h
    linarith
  · exact Real.sum_mul_le_sqrt_mul_sqrt Finset.univ u v

theorem cosineSim_mem {d : ℕ} (u v : Fin d → ℝ) :
    -1 ≤ cosineSim u v ∧ cosineSim u v ≤ 1 := by
  unfold cosineSim
  split_ifs with h1 h2 h2
  · have hz : dotR u v = 0 := by
      unfold dotR
      simp [(l2norm_eq_zero_iff u).mp h1]
    rw [hz]
    norm_num
  · have hz : dotR u v = 0 := by
      unfold dotR
      simp [(l2norm_eq_zero_iff u).mp h1]
    rw [hz]
    norm_num
  · have hz : dotR u v = 0 := by
      unfold dotR
      simp [(l2norm_eq_zero_iff v).mp h2]
    rw [hz]
    norm_num
  · have hu0 : 0 < l2norm u := lt_of_le_of_ne (Real.sqrt_nonneg _) (Ne.symm h1)
    have hv0 : 0 < l2norm v := lt_of_le_of_ne (Real.sqrt_nonneg _) (Ne.symm h2)
    have habs : |dotR u v / (l2norm u * l2norm v)| ≤ 1 := by
      rw [abs_div, abs_of_pos (mul_pos hu0 hv0), div_le_one (mul_pos hu0 hv0)]
      exact abs_dotR_le u v
    exact abs_le.mp habs

/-! ## Claim C6 -/

/-- C6 (amended): for every profile and case the metadata similarity score
lies in [0,1], but the blended combined score
`0.6 * metadata + 0.4 * embedding similarity` lies in [−2/5, 1], not [0,1]:
the embedding side is a cosine, so it ranges over [−1, 1]. -/
theorem c6_scores_bounded {d : ℕ} (p : Profile) (cases : List Case)
    (embs : List (Fin d → ℝ)) :
    (∀ c : Case, 0 ≤ metadataSimilarity p c ∧ metadataSimilarity p c ≤ 1) ∧
    (∀ i : ℕ, -(2/5) ≤ combinedScores p cases embs i ∧
      combinedScores p cases embs i ≤ 1) := by
  refine ⟨fun c => metadataSimilarity_mem p c, fun i => ?_⟩
  unfold combinedScores
  obtain ⟨hm0, hm1⟩ := metaGet_mem p cases i
  have hm0R : (0 : ℝ) ≤ ((metaGet p cases i : ℚ) : ℝ) := by exact_mod_cast hm0
  have hm1R : ((metaGet p cases i : ℚ) : ℝ) ≤ 1 := by exact_mod_cast hm1
  obtain ⟨he0, he1⟩ := cosineSim_mem (centroid p cases embs) (embGet embs i)
  unfold embScores
  constructor <;> nlinarith [he0, he1, hm0R, hm1R]

/-- Counterexample for C6 as stated: on the `c6Cases`/`c6Embs` corpus with
the empty profile, case 2's combined score is −2/5, outside [0,1]. -/
theorem c6_combined_negative :
    combinedScores emptyProfile c6Cases c6Embs 2 = -(2/5) ∧
    ¬(0 ≤ combinedScores emptyProfile c6Cases c6Embs 2) := by
  have hm2 : metaGet emptyProfile c6Cases 2 = 0 := by decide
  have htop : topMetaIdx emptyProfile c6Cases = [0, 1, 2] := by decide
  have hcent : ∀ j : Fin 1, centroid emptyProfile c6Cases c6Embs j = 1/3 := by
    intro j
    unfold centroid
    rw [htop]
    simp [embGet, c6Embs, Matrix.cons_val_fin_one]
  have hnc : l2norm (centroid emptyProfile c6Cases c6Embs) = 1/3 := by
    unfold l2norm
    rw [Fin.sum_univ_one, hcent 0, Real.sqrt_sq (by norm_num : (0:ℝ) ≤ 1/3)]
  have hnv : l2norm (embGet c6Embs 2) = 1 := by
    show l2norm ![-1] = 1
    unfold l2norm
    rw [Fin.sum_univ_one]
    norm_num [Matrix.cons_val_fin_one]
  have hdot : dotR (centroid emptyProfile c6Cases c6Embs) (embGet c6Embs 2) = -(1/3) := by
    unfold dotR
    rw [Fin.sum_univ_one, hcent 0]
    show (1:ℝ)/3 * (![-1] 0) = -(1/3)
    norm_num [Matrix.cons_val_fin_one]
  have hcos : embScores emptyProfile c6Cases c6Embs 2 = -1 := by
    unfold embScores cosineSim
    rw [hnc, hnv, hdot]
    rw [if_neg (by norm_num), if_neg (by norm_num)]
    norm_num
  constructor
  · unfold combinedScores
    rw [hcos, hm2]
    norm_num
  · unfold combinedScores
    rw [hcos, hm2]
    norm_num

/-! ## Claim C3 -/

theorem l2norm_map_div {d : ℕ} (v : Fin d → ℝ) (c : ℝ) (hc : 0 < c) :
    l2norm (fun j => v j / c) = l2norm v / c := by
  unfold l2norm
  rw [show (∑ j, (v j / c) ^ 2) = (∑ j, v j ^ 2) / c ^ 2 by
    simp only [div_pow]
    rw [Finset.sum_div]]
  rw [Real.sqrt_div (Finset.sum_nonneg fun _ _ => sq_nonneg _), Real.sqrt_sq hc.le]

/-- C3: after loading, a case's stored embedding has L2 norm 1.0 within 1e-6
(in exact arithmetic it is exactly 1), except a case whose raw embedding is
the zero vector, whose stored embedding is exactly the zero vector — the
`norms[norms == 0] = 1.0` guard avoids any division by zero. -/
theorem c3_normalized_embeddings (d : ℕ) (v : Fin d → ℝ) :
    (¬(∀ j, v j = 0) → |l2norm (normalizeRow v) - 1| ≤ 1/1000000) ∧
    ((∀ j, v j = 0) → ∀ j, normalizeRow v j = 0) := by
  constructor
  · intro hnz
    have hn0 : l2norm v ≠ 0 := fun h => hnz ((l2norm_eq_zero_iff v).mp h)
    have hpos : 0 < l2norm v := lt_of_le_of_ne (Real.sqrt_nonneg _) (Ne.symm hn0)
    have hrw : normalizeRow v = fun j => v j / l2norm v := by
      funext j
      show v j / (if l2norm v = 0 then 1 else l2norm v) = v j / l2norm v
      rw [if_neg hn0]
    rw [hrw, l2norm_map_div v _ hpos, div_self hn0]
    norm_num
  · intro hz j
    unfold normalizeRow
    rw [hz j]
    simp

/-- Witness for C3: the raw embedding `[3, 4]` (norm 5) normalizes to unit
norm, and the zero vector stays exactly zero. -/
theorem c3_witness :
    (¬(∀ j : Fin 2, (![3, 4] : Fin 2 → ℝ) j = 0)) ∧
    |l2norm (normalizeRow (![3, 4] : Fin 2 → ℝ)) - 1| ≤ 1/1000000 ∧
    (∀ j : Fin 2, normalizeRow (fun _ => (0 : ℝ)) j = 0) := by
  have h3 : ¬(∀ j : Fin 2, (![3, 4] : Fin 2 → ℝ) j = 0) := by
    intro h
    have h0 := h 0
    norm_num [Matrix.cons_val_zero] at h0
  exact ⟨h3, (c3_normalized_embeddings 2 ![3, 4]).1 h3,
    (c3_normalized_embeddings 2 (fun _ => 0)).2 (fun _ => rfl)⟩

/-! ## Claim C2 -/

/-- C2: every `SIMILAR_TO` edge added by `build_graph` comes with its
reverse edge of identical weight, has distinct endpoints, and carries a
weight strictly greater than the similarity threshold. -/
theorem c2_similar_edges_symmetric (d : ℕ) (cases : List Case)
    (embs : List (Fin d → ℝ)) (t : ℝ) (e : SimEdge)
    (he : e ∈ similarEdges cases embs t) :
    ({ src := e.tgt, tgt := e.src, weight := e.weight } : SimEdge) ∈
      similarEdges cases embs t ∧
    e.src ≠ e.tgt ∧ t < e.weight := by
  unfold similarEdges at he ⊢
  split_ifs at he with hlen
  · simp at he
  · obtain ⟨i, hi, he2⟩ := List.mem_flatMap.mp he
    obtain ⟨j, hj, he3⟩ := List.mem_flatMap.mp he2
    rw [if_neg hlen]
    split_ifs at he3 with hij hcos
    · rcases List.mem_cons.mp he3 with h | h
      · subst h
        refine ⟨?_, Nat.ne_of_lt hij, hcos⟩
        exact List.mem_flatMap.mpr ⟨i, hi, List.mem_flatMap.mpr ⟨j, hj, by
          rw [if_pos hij, if_pos hcos]
          exact List.mem_cons_of_mem _ (List.mem_singleton.mpr rfl)⟩⟩
      · rw [List.mem_singleton.mp h]
        refine ⟨?_, (Nat.ne_of_lt hij).symm, hcos⟩
        exact List.mem_flatMap.mpr ⟨i, hi, List.mem_flatMap.mpr ⟨j, hj, by
          rw [if_pos hij, if_pos hcos]
          exact List.mem_cons_self _ _⟩⟩
    · simp at he3
    · simp at he3

/-- Witness for C2: two parallel unit embeddings at threshold 1/2 produce
the symmetric edge pair with weight 1. -/
theorem c2_witness :
    (({ src := 0, tgt := 1, weight := 1 } : SimEdge) ∈
      similarEdges c2Cases c2Embs (1/2)) ∧
    ((({ src := 1, tgt := 0, weight := 1 } : SimEdge) ∈
      similarEdges c2Cases c2Embs (1/2)) ∧
     (0 : ℕ) ≠ 1 ∧ (1/2 : ℝ) < 1) := by
  have h1 : l2norm (![1] : Fin 1 → ℝ) = 1 := by
    unfold l2norm
    rw [Fin.sum_univ_one]
    norm_num [Matrix.cons_val_fin_one, Real.sqrt_one]
  have h2 : dotR (![1] : Fin 1 → ℝ) ![1] = 1 := by
    unfold dotR
    rw [Fin.sum_univ_one]
    norm_num [Matrix.cons_val_fin_one]
  have hcos : cosineSim (embGet c2Embs 0) (embGet c2Embs 1) = 1 := by
    show cosineSim (![1] : Fin 1 → ℝ) ![1] = 1
    unfold cosineSim
    rw [h1, h2, if_neg (by norm_num)]
    norm_num
  have hmem : ({ src := 0, tgt := 1, weight := 1 } : SimEdge) ∈
      similarEdges c2Cases c2Embs (1/2) := by
    unfold similarEdges
    rw [if_neg (by simp [c2Embs])]
    apply List.mem_flatMap.mpr
    refine ⟨0, by simp [c2Cases], ?_⟩
    apply List.mem_flatMap.mpr
    refine ⟨1, by simp [c2Cases], ?_⟩
    rw [hcos, if_pos (by norm_num), if_pos (by norm_num)]
    exact List.mem_cons_self _ _
  exact ⟨hmem, c2_similar_edges_symmetric 1 c2Cases c2Embs (1/2) _ hmem⟩

/-! ## Lemmas about the dedup-and-truncate loop -/

theorem selectLoop_length (key : ℕ → String) (mk : ℕ → SimResult) (topK : ℕ) :
    ∀ (l : List ℕ) (count : ℕ) (seen : List String), count < topK →
      (selectLoop key mk topK count l seen).length ≤ topK - count := by
  intro l
  induction l with
  | nil => intro count seen h; simp [selectLoop]
  | cons i rest ih =>
    intro count seen hcount
    unfold selectLoop
    split_ifs with h1 h2
    · exact ih count seen hcount
    · simp only [List.length_singleton]
      omega
    · have hc2 : count + 1 < topK := by omega
      have h3 := ih (count + 1) (key i :: seen) hc2
      simp only [List.length_cons]
      omega

theorem selectLoop_spec (key : ℕ → String) (mk : ℕ → SimResult) (topK : ℕ) :
    ∀ (l : List ℕ) (count : ℕ) (seen : List String),
      ∃ idxs : List ℕ, selectLoop key mk topK count l seen = idxs.map mk ∧
        idxs.Sublist l ∧ idxs.Pairwise (fun a b => key a ≠ key b) ∧
        ∀ i ∈ idxs, key i ∉ seen := by
  intro l
  induction l with
  | nil => intro count seen; exact ⟨[], rfl, by simp, by simp, by simp⟩
  | cons x rest ih =>
    intro count seen
    unfold selectLoop
    split_ifs with h1 h2
    · obtain ⟨idxs, heq, hsub, hpw, hseen⟩ := ih count seen
      exact ⟨idxs, heq, hsub.cons x, hpw, hseen⟩
    · refine ⟨[x], rfl, (List.nil_sublist rest).cons₂ x, by simp, by simpa using h1⟩
    · obtain ⟨idxs, heq, hsub, hpw, hseen⟩ := ih (count + 1) (key x :: seen)
      refine ⟨x :: idxs, by rw [heq]; rfl, hsub.cons₂ x, ?_, ?_⟩
      · refine List.Pairwise.cons ?_ hpw
        intro b hb hkey
        apply hseen b hb
        rw [← hkey]
        exact List.mem_cons_self _ _
      · intro i hi
        rcases List.mem_cons.mp hi with rfl | hi2
        · exact h1
        · intro hin
          exact hseen i hi2 (List.mem_cons_of_mem _ hin)

theorem selectLoop_first (key : ℕ → String) (mk : ℕ → SimResult) (topK : ℕ) :
    ∀ (l : List ℕ) (count : ℕ) (seen : List String) (e : SimResult),
      e ∈ selectLoop key mk topK count l seen →
      ∃ l1 i l2, l = l1 ++ i :: l2 ∧ e = mk i ∧ key i ∉ seen ∧
        ∀ j ∈ l1, key j ≠ key i := by
  intro l
  induction l with
  | nil => intro count seen e h; simp [selectLoop] at h
  | cons x rest ih =>
    intro count seen e h
    unfold selectLoop at h
    split_ifs at h with h1 h2
    · obtain ⟨l1, i, l2, hsplit, hei, hkey, hfirst⟩ := ih count seen e h
      refine ⟨x :: l1, i, l2, by rw [hsplit]; rfl, hei, hkey, ?_⟩
      intro j hj
      rcases List.mem_cons.mp hj with rfl | hj2
      · intro hx
        exact hkey (hx ▸ h1)
      · exact hfirst j hj2
    · rw [List.mem_singleton.mp h]
      exact ⟨[], x, rest, rfl, rfl, h1, by simp⟩
    · rcases List.mem_cons.mp h with rfl | h3
      · exact ⟨[], x, rest, rfl, rfl, h1, by simp⟩
      · obtain ⟨l1, i, l2, hsplit, hei, hkey, hfirst⟩ := ih (count + 1) (key x :: seen) e h3
        have hxk : key x ≠ key i := by
          intro hx
          apply hkey
          rw [← hx]
          exact List.mem_cons_self _ _
        refine ⟨x :: l1, i, l2, by rw [hsplit]; rfl, hei, ?_, ?_⟩
        · intro hin
          exact hkey (List.mem_cons_of_mem _ hin)
        · intro j hj
          rcases List.mem_cons.mp hj with rfl | hj2
          · exact hxk
          · exact hfirst j hj2

theorem rankedIdx_perm {d : ℕ} (p : Profile) (cases : List Case)
    (embs : List (Fin d → ℝ)) :
    (rankedIdx p cases embs).Perm (List.range cases.length) := by
  unfold rankedIdx
  exact (List.reverse_perm _).trans (List.perm_insertionSort _ _)

/-! ## Claim C1 -/

/-- C1 (amended): for every `top_k ≥ 1`, `find_similar_cases` returns at
most `top_k` results, no two results share a non-empty case number or a
corpus index, and each result is built from the first index in descending
combined-score order whose dedup key had not been seen. -/
theorem c1_find_similar {d : ℕ} (p : Profile) (cases : List Case)
    (embs : List (Fin d → ℝ)) (topK : ℕ)
    (htop : 1 ≤ topK)
    (halign : ∀ i, i < cases.length → (cases.getD i default).index = i) :
    (findSimilarCases p cases embs topK).length ≤ topK ∧
    List.Pairwise (fun e1 e2 : SimResult =>
      e1.caseDict.index ≠ e2.caseDict.index ∧
      ¬(e1.caseDict.case_number = e2.caseDict.case_number ∧
        e1.caseDict.case_number ≠ "")) (findSimilarCases p cases embs topK) ∧
    ∀ e ∈ findSimilarCases p cases embs topK, ∃ l1 i l2,
      rankedIdx p cases embs = l1 ++ i :: l2 ∧ e = mkResult p cases embs i ∧
      ∀ j ∈ l1, dedupKey cases j ≠ dedupKey cases i := by
  refine ⟨?_, ?_, ?_⟩
  · have h := selectLoop_length (dedupKey cases) (mkResult p cases embs) topK
      (rankedIdx p cases embs) 0 [] (by omega)
    unfold findSimilarCases
    omega
  · obtain ⟨idxs, heq, hsub, hpw, _⟩ := selectLoop_spec (dedupKey cases)
      (mkResult p cases embs) topK (rankedIdx p cases embs) 0 []
    unfold findSimilarCases
    rw [heq, List.pairwise_map]
    have hmem : ∀ i ∈ idxs, i < cases.length := by
      intro i hi
      have h3 : i ∈ List.range cases.length :=
        (rankedIdx_perm p cases embs).mem_iff.mp (hsub.subset hi)
      simpa using h3
    apply List.Pairwise.imp_of_mem ?_ hpw
    intro a b ha hb hkey
    constructor
    · have hia := halign a (hmem a ha)
      have hib := halign b (hmem b hb)
      show (cases.getD a default).index ≠ (cases.getD b default).index
      rw [hia, hib]
      intro hab
      exact hkey (by rw [hab])
    · rintro ⟨hcn, hne⟩
      apply hkey
      have hcnab : (cases.getD a default).case_number =
          (cases.getD b default).case_number := hcn
      have hnea : (cases.getD a default).case_number ≠ "" := hne
      have hneb : (cases.getD b default).case_number ≠ "" := by
        rw [← hcnab]; exact hnea
      show dedupKey cases a = dedupKey cases b
      unfold dedupKey
      rw [if_neg hnea, if_neg hneb]
      exact hcnab
  · intro e he
    unfold findSimilarCases at he
    obtain ⟨l1, i, l2, hsplit, hei, _, hfirst⟩ := selectLoop_first (dedupKey cases)
      (mkResult p cases embs) topK (rankedIdx p cases embs) 0 [] e he
    exact ⟨l1, i, l2, hsplit, hei, hfirst⟩

/-- Witness for C1's amended statement on a concrete two-case corpus. -/
theorem c1_witness :
    ((1 : ℕ) ≤ 5 ∧ (∀ i, i < c1WCases.length → (c1WCases.getD i default).index = i)) ∧
    ((findSimilarCases emptyProfile c1WCases c1WEmbs 5).length ≤ 5 ∧
     List.Pairwise (fun e1 e2 : SimResult =>
       e1.caseDict.index ≠ e2.caseDict.index ∧
       ¬(e1.caseDict.case_number = e2.caseDict.case_number ∧
         e1.caseDict.case_number ≠ ""))
       (findSimilarCases emptyProfile c1WCases c1WEmbs 5) ∧
     ∀ e ∈ findSimilarCases emptyProfile c1WCases c1WEmbs 5, ∃ l1 i l2,
       rankedIdx emptyProfile c1WCases c1WEmbs = l1 ++ i :: l2 ∧
       e = mkResult emptyProfile c1WCases c1WEmbs i ∧
       ∀ j ∈ l1, dedupKey c1WCases j ≠ dedupKey c1WCases i) := by
  have halign : ∀ i, i < c1WCases.length → (c1WCases.getD i default).index = i := by
    intro i hi
    have h2 : i < 2 := by simpa [c1WCases] using hi
    interval_cases i <;> rfl
  exact ⟨⟨by norm_num, halign⟩,
    c1_find_similar emptyProfile c1WCases c1WEmbs 5 (by norm_num) halign⟩

/-- Counterexample for C1 as stated ("for every top_k"): with `top_k = 0`
and a one-case corpus, `find_similar_cases` returns 1 result, because the
`len(results) >= top_k` check only runs after the first append. -/
theorem c1_topk_zero_counterexample :
    (findSimilarCases emptyProfile c1Cases c1Embs 0).length = 1 ∧
    ¬((findSimilarCases emptyProfile c1Cases c1Embs 0).length ≤ 0) := by
  have hrank : rankedIdx emptyProfile c1Cases c1Embs = [0] := by
    unfold rankedIdx
    simp [c1Cases, List.insertionSort, List.orderedInsert, List.range_succ]
  have h : findSimilarCases emptyProfile c1Cases c1Embs 0 =
      [mkResult emptyProfile c1Cases c1Embs 0] := by
    unfold findSimilarCases
    rw [hrank]
    unfold selectLoop
    rw [if_neg (by simp), if_pos (by omega)]
  rw [h]
  simp
